import Mathlib

/-!
Shallow embedding of the commit-classification and cross-version aggregation
engine of the oca-port repository (files `oca_port/analyze_native_changes.py`
and `oca_port/cli/analyze.py`), together with theorems settling the claims
about its specification.
-/

namespace OcaPort

/-- The ASCII part of the Python regex class `\s` (space, tab, newline,
carriage return, vertical tab, form feed). -/
def isPySpace (c : Char) : Bool :=
  c = ' ' || c = '\t' || c = '\n' || c = '\r' || c = '\x0b' || c = '\x0c'

/-- Models `message.lower()` on the (ASCII) commit summaries the classifier
receives: lowercase every character. -/
def lowerChars (s : List Char) : List Char :=
  s.map Char.toLower

/-- Does `pat` occur as a contiguous substring of `s`?  Models the Python
`pat in s` test and `re.search` of a plain literal pattern. -/
def containsSub (pat : List Char) : List Char → Bool
  | [] => pat.isEmpty
  | c :: rest => pat.isPrefixOf (c :: rest) || containsSub pat rest

/-- Models `re.search(tag + r"\s*\S+", s)`: `tag` occurs somewhere in `s` and,
after that occurrence, skipping a (possibly empty) run of whitespace reaches at
least one non-whitespace character — equivalently, the remainder after the tag
contains some non-whitespace character. -/
def searchTagToken (tag : List Char) : List Char → Bool
  | [] => false
  | c :: rest =>
    (tag.isPrefixOf (c :: rest) &&
      ((c :: rest).drop tag.length).any (fun x => !(isPySpace x)))
    || searchTagToken tag rest

/-- Embedding of `AnalyzeNativeChanges.categorize_commit` from
`oca_port/analyze_native_changes.py` (lines 25-37):

    message_lower = message.lower()
    if re.search(r"\[fix\]\s*\S+", message_lower): return "fix"
    elif re.search(r"\[imp\]\s*\S+|\[ref\]\s*\S+", message_lower): return "local change"
    elif re.search(r"\[imp\]|\[ref\]", message_lower) and (
        "core" in message_lower or "*" in message_lower): return "global change"
    elif "[i18n]" in message_lower: return "translations"
    return "other"
-/
def categorize_commit (message : String) : String :=
  let m := lowerChars message.data
  if searchTagToken "[fix]".data m then "fix"
  else if searchTagToken "[imp]".data m || searchTagToken "[ref]".data m then
    "local change"
  else if (containsSub "[imp]".data m || containsSub "[ref]".data m)
      && (containsSub "core".data m || containsSub "*".data m) then
    "global change"
  else if containsSub "[i18n]".data m then "translations"
  else "other"

/-- Embedding of `parse_version` inside `_get_odoo_versions_between`
(`oca_port/cli/analyze.py` lines 28-30): a well-formed two-component version
string `"<major>.<minor>"` is represented by its pair of numeric components;
the function encodes it as `major * 10 + minor`. -/
def parse_version (v : Nat × Nat) : Nat :=
  v.1 * 10 + v.2

/-- Embedding of `_get_odoo_versions_between` (`oca_port/cli/analyze.py` lines 22-49):
encode both boundaries, swap so the lower bound comes first, walk the integer
range inclusively, keep multiples of 10 formatted as `f"{major}.0"`, and
reverse the accumulated list. -/
def get_odoo_versions_between (source target : Nat × Nat) : List String :=
  let source_int := parse_version source
  let target_int := parse_version target
  let lo := if source_int > target_int then target_int else source_int
  let hi := if source_int > target_int then source_int else target_int
  let versions :=
    (((List.range (hi + 1 - lo)).map (· + lo)).filter (fun i => i % 10 == 0)).map
      (fun i => toString (i / 10) ++ ".0")
  versions.reverse

/-- The Version Boundary parsing algorithm exactly as the specification words
it (spec §4.4): parse each textual version into `major*10 + minor`; enumerate
all integers between the two bounds inclusive (after ordering them ascending);
keep only integers whose remainder mod 10 is zero; format back to
`"<major>.<minor>"`; return the resulting list reversed. -/
def versions_between_spec (source target : Nat × Nat) : List String :=
  let a := parse_version source
  let b := parse_version target
  let lo := min a b
  let hi := max a b
  ((((List.range (hi + 1 - lo)).map (· + lo)).filter (fun i => i % 10 == 0)).map
    (fun i => toString (i / 10) ++ "." ++ toString (i % 10))).reverse

/-- Commit Record: the normalized view of one commit consumed by
`compute_changes` — `commit.hexsha`, `commit.summary`, and the changed-line
count `commit.raw_commit.stats.total.get("lines", 0)` (a non-negative
integer) returned by `get_commit_line_count`. -/
structure Commit where
  hexsha : String
  summary : String
  line_count : Nat
deriving DecidableEq, Repr

/-- The `{"hexsha": ..., "summary": ...}` record appended to a category's
member list (`analyze_native_changes.py` lines 52-57). -/
structure CommitDetail where
  hexsha : String
  summary : String
deriving DecidableEq, Repr

/-- One value of the `categories_summary` mapping
(`analyze_native_changes.py` lines 61-68). -/
structure CategorySummary where
  commits : Nat
  line_changes : Nat
  commit_details : List CommitDetail
deriving DecidableEq, Repr

/-- The `results` payload built by `compute_changes`
(`analyze_native_changes.py` lines 70-74).  `categories` is the Python dict,
represented as an association list in key-insertion order. -/
structure AnalysisResult where
  total_commits : Nat
  total_line_changes : Nat
  categories : List (String × CategorySummary)
deriving DecidableEq, Repr

/-- The loop state of `compute_changes`: the two `defaultdict`s (represented
as association lists in key-insertion order) and the two running totals. -/
structure ComputeState where
  category_commits : List (String × List CommitDetail)
  category_lines : List (String × Nat)
  total_commits : Nat
  total_lines : Nat
deriving DecidableEq, Repr

/-- Performing `d[k] = f(d[k])` on a Python `defaultdict` whose default value is `dflt`:
if the key is present its value is updated in place (keeping its position in
insertion order), otherwise the key is appended at the end with `f dflt`. -/
def assocUpdate {α : Type} (k : String) (dflt : α) (f : α → α) :
    List (String × α) → List (String × α)
  | [] => [(k, f dflt)]
  | (k', v) :: rest =>
    if k' = k then (k', f v) :: rest else (k', v) :: assocUpdate k dflt f rest

/-- Reading `d[k]` on a `defaultdict` with default value `dflt`. -/
def assocGetD {α : Type} (k : String) (dflt : α) : List (String × α) → α
  | [] => dflt
  | (k', v) :: rest => if k' = k then v else assocGetD k dflt rest

/-- Reading `d.get(k)` on a plain Python dict: `none` models `None`. -/
def assocGet? {α : Type} (k : String) : List (String × α) → Option α
  | [] => none
  | (k', v) :: rest => if k' = k then some v else assocGet? k rest

/-- One iteration of the `for commit in diff.commits_diff` loop of
`compute_changes` (`analyze_native_changes.py` lines 45-60): skip the commit
when `line_count < min_lines`, otherwise classify it, append its detail record
to that category's member list, add its line count to that category's line
total, and bump both running totals.  `min_lines` is the caller-supplied
integer threshold (default 0). -/
def compute_step (min_lines : Int) (st : ComputeState) (commit : Commit) :
    ComputeState :=
  if (commit.line_count : Int) < min_lines then st
  else
    let category := categorize_commit commit.summary
    { category_commits :=
        assocUpdate category []
          (fun l => l ++ [⟨commit.hexsha, commit.summary⟩]) st.category_commits
      category_lines :=
        assocUpdate category 0 (fun n => n + commit.line_count) st.category_lines
      total_commits := st.total_commits + 1
      total_lines := st.total_lines + commit.line_count }

/-- Embedding of `AnalyzeNativeChanges.compute_changes` (`analyze_native_changes.py`
lines 39-74): fold the loop over the commit stream starting from empty
dictionaries and zero totals, then build the `categories_summary` mapping and
the final results payload. -/
def compute_changes (min_lines : Int) (commits : List Commit) : AnalysisResult :=
  let st := commits.foldl (compute_step min_lines) ⟨[], [], 0, 0⟩
  { total_commits := st.total_commits
    total_line_changes := st.total_lines
    categories := st.category_commits.map (fun p =>
      (p.1,
        { commits := p.2.length
          line_changes := assocGetD p.1 0 st.category_lines
          commit_details := p.2 })) }

/-- All member detail records appearing anywhere in an Analysis Result. -/
def memberDetails (r : AnalysisResult) : List CommitDetail :=
  (r.categories.map (fun p => p.2.commit_details)).flatten

/-- The loop invariant of `compute_changes`: the two dictionaries share the
same key sequence in the same order, the keys are pairwise distinct, and the
two running totals are the sums of the per-category member-list lengths and
the per-category line totals respectively. -/
def ComputeInv (st : ComputeState) : Prop :=
  st.category_commits.map Prod.fst = st.category_lines.map Prod.fst ∧
  (st.category_commits.map Prod.fst).Nodup ∧
  st.total_commits = (st.category_commits.map (fun p => p.2.length)).sum ∧
  st.total_lines = (st.category_lines.map Prod.snd).sum

/-- All member detail records stored in the loop state. -/
def stateDetails (st : ComputeState) : List CommitDetail :=
  (st.category_commits.map Prod.snd).flatten

/-- A concrete two-line Commit Record used as a witness input. -/
def smallCommit : Commit :=
  { hexsha := "a1b2c3", summary := "[FIX] stock: rounding", line_count := 2 }

/-- Embedding of the per-cell extraction of the heatmap walk in `analyze`
(`oca_port/cli/analyze.py` lines 144-155).  The code reads
`analysis_results.get("results", {}).get("categories", {})` and then
`category_data.get("translations")["line_changes"]`: despite the
caller-supplied `heatmap_category` option, the key looked up is the literal
string `"translations"` (the source carries a `FIXME: implement category`
comment at exactly this point); when that key is absent, `.get` returns
`None` and the subscript raises, modelled by `none`. -/
def extract_heatmap_cell (_heatmap_category : String) (analysis : AnalysisResult) :
    Option Nat :=
  (assocGet? "translations" analysis.categories).map (fun s => s.line_changes)

/-- One iteration of the walker's inner loop (`analyze.py` lines 119-162) for
the adjacent pair `(src, tgt)`: run the single-transition analysis — the
external `App(...).run_analyze()`, supplied as an oracle `analyzeFn` whose
`none` models a raised exception — then extract the heatmap cell; any failure
inside the loop body is caught by the `except Exception` clause and reported
to stderr, so the iteration produces no cell (`none`). -/
def heatmap_cell (analyzeFn : String → String → String → Option AnalysisResult)
    (heatmap_category addon src tgt : String) : Option (String × Nat) :=
  match analyzeFn addon src tgt with
  | none => none
  | some res =>
    (extract_heatmap_cell heatmap_category res).map
      (fun lc => (src ++ "-" ++ tgt, lc))

/-- The walker's inner loop over all adjacent version pairs
(`for i in range(len(all_versions) - 1)`) for one module: each failing cell is
skipped and the walk continues; each successful cell is stored under its
transition key `f"{current_source_version}-{current_target_version}"`. -/
def walk_addon (analyzeFn : String → String → String → Option AnalysisResult)
    (heatmap_category addon : String) (all_versions : List String) :
    List (String × Nat) :=
  (all_versions.zip all_versions.tail).filterMap
    (fun p => heatmap_cell analyzeFn heatmap_category addon p.1 p.2)

/-- The full walk of `analyze` (`analyze.py` lines 114-162) building
`heatmap_results`: one row per addon; an addon whose cells all failed never
receives an entry in the `defaultdict`. -/
def build_heatmap (analyzeFn : String → String → String → Option AnalysisResult)
    (heatmap_category : String) (addons : List String)
    (all_versions : List String) : List (String × List (String × Nat)) :=
  addons.foldl (fun acc addon =>
    let cells := walk_addon analyzeFn heatmap_category addon all_versions
    if cells.isEmpty then acc else acc ++ [(addon, cells)]) []

/-- A concrete Analysis Result whose `fix` category has 3 changed lines and
whose `translations` category has 7. -/
def sampleResult : AnalysisResult :=
  { total_commits := 2
    total_line_changes := 10
    categories :=
      [("fix",
        { commits := 1, line_changes := 3
          commit_details := [{ hexsha := "deadbeef", summary := "[FIX] x: y" }] }),
       ("translations",
        { commits := 1, line_changes := 7
          commit_details := [{ hexsha := "cafebabe", summary := "[i18n] z" }] })] }

/-- An analysis oracle realizing the spec scenario for the walker: the
17.0→16.0 analysis raises, the 16.0→15.0 analysis returns `sampleResult`. -/
def sampleAnalyzeFn : String → String → String → Option AnalysisResult :=
  fun _addon src _tgt => if src = "16.0" then some sampleResult else none

/-- Modelled from the spec: the ANSI color/formatting constants (`bcolors`
imported from `oca_port/utils/misc.py`, which is not among the provided
sources).  Spec §9 describes them as "Global color/formatting state (ANSI
color constants used throughout rendering)" and asks for "a stateless
formatting capability passed into the render function"; accordingly the
renderer is parameterized over this record, whose concrete escape-code values
never influence the report's structure. -/
structure Bcolors where
  HEADER : String
  BOLD : String
  OKBLUE : String
  WARNING : String
  UNDERLINE : String
  DIM : String
  END : String
  ENDD : String
deriving DecidableEq, Repr

/-- The line-boundary characters of Python `str.splitlines`: newline,
carriage return, vertical tab, form feed, the separators 0x1c-0x1e, next-line
0x85, and the Unicode line and paragraph separators. -/
def isLineBreak (c : Char) : Bool :=
  c = '\n' || c = '\r' || c = '\x0b' || c = '\x0c' ||
  c = '\x1c' || c = '\x1d' || c = '\x1e' || c = '\x85' ||
  c = '\u2028' || c = '\u2029'

/-- Worker for `splitlines`; `acc` holds the characters of the current line
in reverse.  A carriage-return/newline pair counts as a single boundary, and
a final line is emitted only when non-empty (Python emits no trailing empty
line: `"a\n".splitlines() = ["a"]` and `"".splitlines() = []`). -/
def splitlinesGo : List Char → List Char → List (List Char)
  | [], acc => if acc.isEmpty then [] else [acc.reverse]
  | '\r' :: '\n' :: rest, acc => acc.reverse :: splitlinesGo rest []
  | c :: rest, acc =>
    if isLineBreak c then acc.reverse :: splitlinesGo rest []
    else splitlinesGo rest (c :: acc)

/-- Python `str.splitlines`. -/
def splitlines (s : String) : List String :=
  (splitlinesGo s.data []).map (fun cs => String.mk cs)

/-- One line of the per-commit breakdown (`analyze_native_changes.py` lines
101-104): `summary = commit["summary"].splitlines()[0]` raises an IndexError
when the summary splits into no lines (i.e. the summary is the empty string),
modelled by `none`; otherwise the line
`f"     - {bc.DIM}{hexsha}: {summary}{bc.ENDD}"` is produced. -/
def detail_line (bc : Bcolors) (commit : CommitDetail) : Option String :=
  match splitlines commit.summary with
  | [] => none
  | first :: _ =>
    some ("     - " ++ bc.DIM ++ commit.hexsha ++ ": " ++ first ++ bc.ENDD)

/-- The `for commit in data["commit_details"]` loop of `print_changes`:
one breakdown line per member commit; an IndexError aborts the rendering. -/
def render_details (bc : Bcolors) : List CommitDetail → Option (List String)
  | [] => some []
  | c :: rest =>
    match detail_line bc c with
    | none => none
    | some l => (render_details bc rest).map (fun t => l :: t)

/-- The first three lines appended for category number `idx` by the loop of
`print_changes` (`analyze_native_changes.py` lines 89-96): category header,
commit count and line total. -/
def category_stat_lines (bc : Bcolors) (idx : Nat) (category : String)
    (data : CategorySummary) : List String :=
  ["\n" ++ toString idx ++ ") " ++ bc.UNDERLINE ++ "Category: " ++ category ++ bc.END,
   "   " ++ bc.BOLD ++ "Commits:" ++ bc.END ++ " "
     ++ bc.OKBLUE ++ toString data.commits ++ bc.END,
   "   " ++ bc.BOLD ++ "Total line changes:" ++ bc.END ++ " "
     ++ bc.WARNING ++ toString data.line_changes ++ bc.END]

/-- The `for idx, (category, data) in enumerate(results["categories"].items(), 1)`
loop of `print_changes` (`analyze_native_changes.py` lines 89-104): the three
statistic lines are always appended; for `translations` the `continue`
statement skips the breakdown; for every other category the
`"Commit details:"` header and one line per member commit follow. -/
def render_categories (bc : Bcolors) :
    List (Nat × (String × CategorySummary)) → Option (List String)
  | [] => some []
  | (idx, (category, data)) :: rest =>
    if category = "translations" then
      (render_categories bc rest).map
        (fun t => category_stat_lines bc idx category data ++ t)
    else
      match render_details bc data.commit_details with
      | none => none
      | some details =>
        (render_categories bc rest).map (fun t =>
          category_stat_lines bc idx category data
            ++ (("   " ++ bc.BOLD ++ "Commit details:" ++ bc.END) :: details) ++ t)

/-- The four header lines of the report (`analyze_native_changes.py` lines
80-87). -/
def report_header (bc : Bcolors) (results : AnalysisResult) : List String :=
  ["\n" ++ bc.HEADER ++ "--- Analysis Result ---" ++ bc.END,
   bc.BOLD ++ "Total commits:" ++ bc.END ++ " "
     ++ bc.OKBLUE ++ toString results.total_commits ++ bc.END,
   bc.BOLD ++ "Total line changes:" ++ bc.END ++ " "
     ++ bc.WARNING ++ toString results.total_line_changes ++ bc.END,
   "\n" ++ bc.HEADER ++ "--- Breakdown by Category ---" ++ bc.END]

/-- Embedding of `AnalyzeNativeChanges.print_changes`
(`analyze_native_changes.py` lines 76-106): the list of report lines that the
method joins with newlines and prints; `none` models an uncaught IndexError
raised while itemizing a commit. -/
def print_changes_lines (bc : Bcolors) (results : AnalysisResult) :
    Option (List String) :=
  (render_categories bc (results.categories.enumFrom 1)).map
    (fun blocks => report_header bc results ++ blocks)

/-- Traversal of a list under a fallible function: `some` of all results in
order, or `none` as soon as any element fails. -/
def optionTraverse {a b : Type} (f : a → Option b) : List a → Option (List b)
  | [] => some []
  | x :: rest =>
    match f x, optionTraverse f rest with
    | some y, some ys => some (y :: ys)
    | _, _ => none

/-- The per-category rendering policy as the spec words it (§4.3): every
non-empty category gets its count and line-total lines; `translations` gets
counts only, never a per-commit breakdown; every other category is itemized
with one enumerated line per member commit (hash plus first summary line). -/
def category_block_spec (bc : Bcolors) (idx : Nat) (category : String)
    (data : CategorySummary) : Option (List String) :=
  if category = "translations" then
    some (category_stat_lines bc idx category data)
  else
    (optionTraverse (detail_line bc) data.commit_details).map (fun details =>
      category_stat_lines bc idx category data
        ++ (("   " ++ bc.BOLD ++ "Commit details:" ++ bc.END) :: details))

/-- The report as the spec words it: the header followed by the concatenated
per-category blocks, each rendered by the per-category policy. -/
def print_changes_spec (bc : Bcolors) (results : AnalysisResult) :
    Option (List String) :=
  (optionTraverse (fun p => category_block_spec bc p.1 p.2.1 p.2.2)
      (results.categories.enumFrom 1)).map
    (fun blocks => report_header bc results ++ blocks.flatten)

/-- Concrete ANSI values for the formatting record, used in witnesses. -/
def sampleBcolors : Bcolors :=
  { HEADER := "\x1b[95m", BOLD := "\x1b[1m", OKBLUE := "\x1b[94m",
    WARNING := "\x1b[93m", UNDERLINE := "\x1b[4m", DIM := "\x1b[2m",
    END := "\x1b[0m", ENDD := "\x1b[0m" }

/-- A concrete Analysis Result whose only (non-`translations`) category holds
a commit with an empty summary — a shape the data model permits. -/
def emptySummaryResult : AnalysisResult :=
  { total_commits := 1
    total_line_changes := 4
    categories :=
      [("fix",
        { commits := 1, line_changes := 4
          commit_details := [{ hexsha := "feedc0de", summary := "" }] })] }

/-- Helper: appending `"." ++ "0"` is appending `".0"`. -/
theorem append_dot_zero (s : String) : s ++ "." ++ "0" = s ++ ".0" := by
  rw [String.append_assoc]
  congr 1

/-- C2 counterexample: on the summary `"[IMP] core: batch update"` the
classifier does NOT return `global change` (the claim states it does): the
token `core:` directly follows the `[imp]` tag, so the rule-2 pattern
`\[imp\]\s*\S+` already matches. -/
theorem C2_counterexample :
    ¬ categorize_commit "[IMP] core: batch update" = "global change" := by
  decide

/-- C2 (amended): for the summary `"[IMP] core: batch update"` (an `[imp]` tag
followed by the word `core`), the Classifier returns the category
`local change`, because rule 2 (tag followed by a non-whitespace token) fires
before the `global change` rule ever gets considered. -/
theorem C2_amended_thm :
    categorize_commit "[IMP] core: batch update" = "local change" := by
  decide

/-- C6 counterexample: the summary `"[fix]!"` — a bracketed `fix` tag
immediately followed by trailing punctuation and no further token — IS labelled
`fix` (the claim states it is not): the regex class `\S+` matches the
punctuation character itself. -/
theorem C6_counterexample : categorize_commit "[fix]!" = "fix" := by
  decide

/-- C6 (amended): for every summary in which no occurrence of the bracketed
`[fix]` tag (in the lower-cased text) is followed — after optional
whitespace — by any non-whitespace character at all (punctuation included),
the Classifier does not return `fix`: the summary falls through to the later
rules, otherwise to `other`. -/
theorem C6_amended_thm (message : String)
    (h : searchTagToken "[fix]".data (lowerChars message.data) = false) :
    categorize_commit message ≠ "fix" := by
  unfold categorize_commit
  simp only [h]
  split_ifs <;> simp_all

/-- Witness for C6 (amended) at the concrete summary `"[fix]"`: the tag is
followed by nothing, the rule-1 matcher rejects it, and the classifier indeed
answers something other than `fix`. -/
theorem C6_amended_witness :
    searchTagToken "[fix]".data (lowerChars "[fix]".data) = false ∧
      categorize_commit "[fix]" ≠ "fix" :=
  ⟨by decide, C6_amended_thm "[fix]" (by decide)⟩

/-- C4: the version-chain builder computes exactly what the specification's
Version Boundary parsing algorithm describes: encode both two-component
versions as `major*10 + minor`, enumerate the inclusive integer range after
ordering the bounds ascending, keep the multiples of 10, format each survivor
back to `"<major>.<minor>"`, and reverse so the newest version comes first. -/
theorem C4_thm (source target : Nat × Nat) :
    get_odoo_versions_between source target = versions_between_spec source target := by
  unfold get_odoo_versions_between versions_between_spec
  have hlo : (if parse_version source > parse_version target
      then parse_version target else parse_version source)
      = min (parse_version source) (parse_version target) := by
    split_ifs with h <;> omega
  have hhi : (if parse_version source > parse_version target
      then parse_version source else parse_version target)
      = max (parse_version source) (parse_version target) := by
    split_ifs with h <;> omega
  simp only [hlo, hhi]
  congr 1
  apply List.map_congr_left
  intro i hi
  have hmod : i % 10 = 0 := by
    have := (List.mem_filter.mp hi).2
    simpa using this
  rw [hmod]
  have h0 : toString (0 : Nat) = "0" := rfl
  rw [h0]
  exact (append_dot_zero _).symm

/-- Helper: updating a key of a dictionary either keeps the key sequence (key
already present) or appends the key at the end (key absent). -/
theorem assocUpdate_keys {α : Type} (k : String) (dflt : α) (f : α → α)
    (l : List (String × α)) :
    (assocUpdate k dflt f l).map Prod.fst =
      if k ∈ l.map Prod.fst then l.map Prod.fst else l.map Prod.fst ++ [k] := by
  induction l with
  | nil => simp [assocUpdate]
  | cons p rest ih =>
    obtain ⟨k', v⟩ := p
    by_cases h : k' = k
    · subst h
      simp [assocUpdate]
    · simp only [assocUpdate, if_neg h, List.map_cons, ih]
      by_cases hm : k ∈ rest.map Prod.fst
      · simp [hm, Ne.symm h]
      · simp [hm, Ne.symm h]

/-- Helper: updating a key preserves distinctness of the key sequence. -/
theorem assocUpdate_keys_nodup {α : Type} (k : String) (dflt : α) (f : α → α)
    (l : List (String × α)) (h : (l.map Prod.fst).Nodup) :
    ((assocUpdate k dflt f l).map Prod.fst).Nodup := by
  rw [assocUpdate_keys]
  split_ifs with hm
  · exact h
  · simp [List.nodup_append, h, hm]

/-- Helper: adding `n` to one entry of a counter dictionary adds `n` to the
sum of its values. -/
theorem assocUpdate_sum_snd (k : String) (n : Nat) (l : List (String × Nat)) :
    ((assocUpdate k 0 (fun m => m + n) l).map Prod.snd).sum
      = (l.map Prod.snd).sum + n := by
  induction l with
  | nil => simp [assocUpdate]
  | cons p rest ih =>
    obtain ⟨k', v⟩ := p
    by_cases h : k' = k
    · simp [assocUpdate, h]
      omega
    · simp [assocUpdate, h, ih]
      omega

/-- Helper: appending one element to one entry of a list-valued dictionary
adds one to the total length of its values. -/
theorem assocUpdate_sum_lengths {α : Type} (k : String) (x : α)
    (l : List (String × List α)) :
    ((assocUpdate k [] (fun cs => cs ++ [x]) l).map (fun p => p.2.length)).sum
      = (l.map (fun p => p.2.length)).sum + 1 := by
  induction l with
  | nil => simp [assocUpdate]
  | cons p rest ih =>
    obtain ⟨k', v⟩ := p
    by_cases h : k' = k
    · simp [assocUpdate, h]
      omega
    · simp [assocUpdate, h, ih]
      omega

/-- Helper: one iteration of the aggregation loop preserves the invariant. -/
theorem compute_step_inv (m : Int) (st : ComputeState) (c : Commit)
    (h : ComputeInv st) : ComputeInv (compute_step m st c) := by
  unfold compute_step
  split_ifs with hlt
  · exact h
  · obtain ⟨h1, h2, h3, h4⟩ := h
    refine ⟨?_, ?_, ?_, ?_⟩
    · simp only [assocUpdate_keys, h1]
    · exact assocUpdate_keys_nodup _ _ _ _ h2
    · simp only [assocUpdate_sum_lengths]
      omega
    · simp only [assocUpdate_sum_snd]
      omega

/-- Helper: the whole aggregation loop preserves the invariant. -/
theorem foldl_inv (m : Int) (commits : List Commit) (st : ComputeState)
    (h : ComputeInv st) : ComputeInv (commits.foldl (compute_step m) st) := by
  induction commits generalizing st with
  | nil => exact h
  | cons c t ih => exact ih _ (compute_step_inv m st c h)

/-- Helper: summing the looked-up values of a dictionary along an equal,
duplicate-free key sequence yields the sum of the dictionary's values. -/
theorem sum_assocGetD {β : Type} (l1 : List (String × β)) (l2 : List (String × Nat))
    (hk : l1.map Prod.fst = l2.map Prod.fst) (hnd : (l1.map Prod.fst).Nodup) :
    (l1.map (fun p => assocGetD p.1 0 l2)).sum = (l2.map Prod.snd).sum := by
  induction l1 generalizing l2 with
  | nil =>
    cases l2 with
    | nil => simp
    | cons q t2 => simp at hk
  | cons p t ih =>
    cases l2 with
    | nil => simp at hk
    | cons q t2 =>
      obtain ⟨k, v⟩ := p
      obtain ⟨k2, v2⟩ := q
      simp only [List.map_cons, List.cons.injEq] at hk
      obtain ⟨hk1, hk2⟩ := hk
      subst hk1
      simp only [List.map_cons, List.nodup_cons] at hnd
      have hrest : ∀ p ∈ t, assocGetD p.1 0 ((k, v2) :: t2) = assocGetD p.1 0 t2 := by
        intro p hp
        have hpk : p.1 ∈ t.map Prod.fst := List.mem_map_of_mem Prod.fst hp
        have hne : ¬ (k = p.1) := fun he => hnd.1 (he ▸ hpk)
        simp [assocGetD, hne]
      simp only [List.map_cons, List.sum_cons]
      rw [List.map_congr_left hrest, ih t2 hk2 hnd.2]
      simp [assocGetD]

/-- C3: for every sequence of Commit Records and every `min_lines` value, the
Analysis Result produced by `compute_changes` satisfies
`total_commits = Σ categories[*].commit_count` and
`total_line_changes = Σ categories[*].line_changes`. -/
theorem C3_thm (min_lines : Int) (commits : List Commit) :
    (compute_changes min_lines commits).total_commits
        = ((compute_changes min_lines commits).categories.map
            (fun p => p.2.commits)).sum ∧
      (compute_changes min_lines commits).total_line_changes
        = ((compute_changes min_lines commits).categories.map
            (fun p => p.2.line_changes)).sum := by
  have hinv : ComputeInv (commits.foldl (compute_step min_lines) ⟨[], [], 0, 0⟩) :=
    foldl_inv min_lines commits _ ⟨rfl, by simp, rfl, rfl⟩
  obtain ⟨h1, h2, h3, h4⟩ := hinv
  simp only [compute_changes, List.map_map, Function.comp]
  constructor
  · exact h3
  · rw [h4]
    exact (sum_assocGetD _ _ h1 h2).symm

/-- Helper: a commit below the threshold leaves the loop state unchanged. -/
theorem compute_step_skip (m : Int) (st : ComputeState) (c : Commit)
    (h : (c.line_count : Int) < m) : compute_step m st c = st := by
  simp [compute_step, h]

/-- Helper: folding the loop over the input equals folding it over the input
restricted to the commits that meet the threshold. -/
theorem foldl_filter (m : Int) (commits : List Commit) (st : ComputeState) :
    commits.foldl (compute_step m) st
      = (commits.filter (fun c => !(decide ((c.line_count : Int) < m)))).foldl
          (compute_step m) st := by
  induction commits generalizing st with
  | nil => rfl
  | cons c t ih =>
    by_cases h : (c.line_count : Int) < m
    · simp only [List.foldl_cons, List.filter_cons]
      rw [compute_step_skip m st c h]
      simp [h, ih]
    · simp only [List.foldl_cons, List.filter_cons]
      simp [h, ih]

/-- Helper: a detail record found after a dictionary update was either already
present or is the newly appended record. -/
theorem mem_assocUpdate_flatten {k : String} {x : CommitDetail}
    {l : List (String × List CommitDetail)} {d : CommitDetail}
    (h : d ∈ ((assocUpdate k [] (fun cs => cs ++ [x]) l).map Prod.snd).flatten) :
    d ∈ (l.map Prod.snd).flatten ∨ d = x := by
  induction l with
  | nil =>
    simp [assocUpdate] at h
    exact Or.inr h
  | cons p rest ih =>
    obtain ⟨k', v⟩ := p
    simp only [List.map_cons, List.flatten_cons, List.mem_append]
    by_cases hk : k' = k
    · simp only [assocUpdate, if_pos hk, List.map_cons, List.flatten_cons,
        List.mem_append, List.mem_singleton] at h
      rcases h with (h | h) | h
      · exact Or.inl (Or.inl h)
      · exact Or.inr h
      · exact Or.inl (Or.inr h)
    · simp only [assocUpdate, if_neg hk, List.map_cons, List.flatten_cons,
        List.mem_append] at h
      rcases h with h | h
      · exact Or.inl (Or.inl h)
      · rcases ih h with h' | h'
        · exact Or.inl (Or.inr h')
        · exact Or.inr h'

/-- Helper: a detail record found after one loop iteration was either already
present or comes from the processed commit, which then met the threshold. -/
theorem stateDetails_step (m : Int) (st : ComputeState) (c : Commit)
    (d : CommitDetail) (h : d ∈ stateDetails (compute_step m st c)) :
    d ∈ stateDetails st ∨
      (¬ (c.line_count : Int) < m ∧ d.hexsha = c.hexsha ∧ d.summary = c.summary) := by
  by_cases hlt : (c.line_count : Int) < m
  · rw [compute_step_skip m st c hlt] at h
    exact Or.inl h
  · unfold compute_step at h
    rw [if_neg hlt] at h
    unfold stateDetails at h
    rcases mem_assocUpdate_flatten h with h' | h'
    · exact Or.inl h'
    · subst h'
      exact Or.inr ⟨hlt, rfl, rfl⟩

/-- Helper: a detail record found after the whole loop was either present
initially or comes from an input commit that met the threshold. -/
theorem stateDetails_foldl (m : Int) (commits : List Commit) (st : ComputeState)
    (d : CommitDetail) (h : d ∈ stateDetails (commits.foldl (compute_step m) st)) :
    d ∈ stateDetails st ∨
      ∃ c ∈ commits, ¬ (c.line_count : Int) < m
        ∧ d.hexsha = c.hexsha ∧ d.summary = c.summary := by
  induction commits generalizing st with
  | nil => exact Or.inl h
  | cons c t ih =>
    rcases ih (compute_step m st c) h with h' | h'
    · rcases stateDetails_step m st c d h' with h'' | h''
      · exact Or.inl h''
      · exact Or.inr ⟨c, List.mem_cons_self c t, h''⟩
    · obtain ⟨c', hc', hh⟩ := h'
      exact Or.inr ⟨c', List.mem_cons_of_mem _ hc', hh⟩

/-- Helper: the detail records of the final Analysis Result are exactly the
detail records accumulated in the loop state. -/
theorem memberDetails_compute (m : Int) (commits : List Commit) :
    memberDetails (compute_changes m commits)
      = stateDetails (commits.foldl (compute_step m) ⟨[], [], 0, 0⟩) := by
  simp only [memberDetails, compute_changes, stateDetails, List.map_map]
  congr 1

/-- C7: for every input sequence and every `min_lines` value, every commit
record appearing anywhere in the Analysis Result comes from an input commit
with `line_count >= min_lines`, and commits with `line_count < min_lines` are
excluded from all counts, line totals and member lists (the result equals the
result over the filtered input). -/
theorem C7_thm (min_lines : Int) (commits : List Commit) :
    (∀ d ∈ memberDetails (compute_changes min_lines commits),
        ∃ c ∈ commits, min_lines ≤ (c.line_count : Int)
          ∧ d.hexsha = c.hexsha ∧ d.summary = c.summary) ∧
      compute_changes min_lines commits
        = compute_changes min_lines
            (commits.filter (fun c => !(decide ((c.line_count : Int) < min_lines)))) := by
  constructor
  · intro d hd
    rw [memberDetails_compute] at hd
    rcases stateDetails_foldl _ _ _ _ hd with h | h
    · simp [stateDetails] at h
    · obtain ⟨c, hc, hlt, h1, h2⟩ := h
      exact ⟨c, hc, not_lt.mp hlt, h1, h2⟩
  · unfold compute_changes
    rw [← foldl_filter]

/-- C8: aggregating an input in which no commit survives the `min_lines`
filter (including the empty sequence) raises no error and yields the Analysis
Result with `total_commits = 0`, `total_line_changes = 0` and an empty
category map. -/
theorem C8_thm (min_lines : Int) (commits : List Commit)
    (h : ∀ c ∈ commits, (c.line_count : Int) < min_lines) :
    compute_changes min_lines commits
      = { total_commits := 0, total_line_changes := 0, categories := [] } := by
  have hst : commits.foldl (compute_step min_lines) ⟨[], [], 0, 0⟩ = ⟨[], [], 0, 0⟩ := by
    induction commits with
    | nil => rfl
    | cons c t ih =>
      simp only [List.foldl_cons]
      rw [compute_step_skip _ _ _ (h c (List.mem_cons_self c t))]
      exact ih (fun c' hc' => h c' (List.mem_cons_of_mem _ hc'))
  simp [compute_changes, hst]

/-- Witness for C8: a single two-line commit is entirely filtered out by
`min_lines = 5`, leaving the all-zero Analysis Result. -/
theorem C8_witness :
    (∀ c ∈ [smallCommit], (c.line_count : Int) < 5) ∧
      compute_changes 5 [smallCommit]
        = { total_commits := 0, total_line_changes := 0, categories := [] } :=
  ⟨by decide, C8_thm 5 [smallCommit] (by decide)⟩

/-- C1 (code bug): with requested category `fix`, on an Analysis Result whose
`fix` entry has 3 changed lines and whose `translations` entry has 7, the
walker's cell extraction returns 7 — the `translations` value — instead of
`categories["fix"].line_changes = 3` as the claim requires: the lookup key is
hard-coded to `"translations"` (the source marks the spot with
`FIXME: implement category`). -/
theorem C1_code_bug_thm :
    extract_heatmap_cell "fix" sampleResult = some 7 ∧
      (assocGet? "fix" sampleResult.categories).map (fun s => s.line_changes)
        = some 3 := by
  constructor <;> rfl

/-- C5: during a multi-hop walk, a failure while analysing one
(module, adjacent-pair) cell — a raised analysis error or the
missing-category condition, both modelled by `none` — only omits that cell:
every adjacent pair whose cell computation succeeds contributes its cell to
the module's matrix row regardless of any other pair's failure, and
conversely every cell present in the row comes from a successful
adjacent-pair analysis. -/
theorem C5_thm (analyzeFn : String → String → String → Option AnalysisResult)
    (heatmap_category addon : String) (all_versions : List String)
    (src tgt : String) (cell : String × Nat)
    (hpair : (src, tgt) ∈ all_versions.zip all_versions.tail)
    (hcell : heatmap_cell analyzeFn heatmap_category addon src tgt = some cell) :
    cell ∈ walk_addon analyzeFn heatmap_category addon all_versions ∧
      ∀ c ∈ walk_addon analyzeFn heatmap_category addon all_versions,
        ∃ q ∈ all_versions.zip all_versions.tail,
          heatmap_cell analyzeFn heatmap_category addon q.1 q.2 = some c := by
  constructor
  · exact List.mem_filterMap.mpr ⟨(src, tgt), hpair, hcell⟩
  · intro c hc
    obtain ⟨q, hq, hqc⟩ := List.mem_filterMap.mp hc
    exact ⟨q, hq, hqc⟩

/-- Witness for C5, realizing the spec scenario: chain
`["17.0", "16.0", "15.0"]`, the 17.0→16.0 analysis fails, yet the surviving
16.0→15.0 cell is present in the matrix row. -/
theorem C5_witness :
    ("16.0", "15.0")
        ∈ (["17.0", "16.0", "15.0"] : List String).zip
            (["17.0", "16.0", "15.0"] : List String).tail ∧
      heatmap_cell sampleAnalyzeFn "fix" "delivery" "16.0" "15.0"
        = some ("16.0-15.0", 7) ∧
      ("16.0-15.0", 7)
        ∈ walk_addon sampleAnalyzeFn "fix" "delivery" ["17.0", "16.0", "15.0"] :=
  ⟨by decide, by decide,
    (C5_thm sampleAnalyzeFn "fix" "delivery" ["17.0", "16.0", "15.0"]
      "16.0" "15.0" ("16.0-15.0", 7) (by decide) (by decide)).1⟩

/-- Helper: the literal per-commit loop equals the traversal of
`detail_line` over the member list. -/
theorem render_details_eq (bc : Bcolors) (l : List CommitDetail) :
    render_details bc l = optionTraverse (detail_line bc) l := by
  induction l with
  | nil => rfl
  | cons c rest ih =>
    simp only [render_details, optionTraverse, ih]
    cases detail_line bc c with
    | none => rfl
    | some s =>
      cases optionTraverse (detail_line bc) rest with
      | none => rfl
      | some t => rfl

/-- Helper: unfolding one step of `optionTraverse`. -/
theorem optionTraverse_cons {a b : Type} (f : a → Option b) (x : a) (l : List a) :
    optionTraverse f (x :: l)
      = match f x, optionTraverse f l with
        | some y, some ys => some (y :: ys)
        | _, _ => none := rfl

/-- Helper: the literal category loop produces the concatenation of the
spec-worded per-category blocks. -/
theorem render_categories_eq (bc : Bcolors)
    (l : List (Nat × (String × CategorySummary))) :
    render_categories bc l
      = (optionTraverse (fun p => category_block_spec bc p.1 p.2.1 p.2.2) l).map
          List.flatten := by
  induction l with
  | nil => rfl
  | cons p rest ih =>
    obtain ⟨idx, category, data⟩ := p
    rw [optionTraverse_cons]
    by_cases hc : category = "translations"
    · simp only [render_categories, if_pos hc, ih]
      rw [show category_block_spec bc idx category data
            = some (category_stat_lines bc idx category data) from by
          simp [category_block_spec, hc]]
      cases optionTraverse (fun p => category_block_spec bc p.1 p.2.1 p.2.2) rest with
      | none => rfl
      | some blocks => rfl
    · simp only [render_categories, if_neg hc, render_details_eq, ih]
      rw [show category_block_spec bc idx category data
            = (optionTraverse (detail_line bc) data.commit_details).map
                (fun details => category_stat_lines bc idx category data
                  ++ (("   " ++ bc.BOLD ++ "Commit details:" ++ bc.END) :: details)) from by
          simp [category_block_spec, hc]]
      cases optionTraverse (detail_line bc) data.commit_details with
      | none => rfl
      | some details =>
        cases optionTraverse (fun p => category_block_spec bc p.1 p.2.1 p.2.2) rest with
        | none => rfl
        | some blocks =>
          simp [List.append_assoc]

/-- C9: for every formatting record and every Analysis Result, the
human-readable report equals the spec-worded rendering in which every
non-empty category except `translations` is rendered with its count, its line
total and an enumerated per-commit list (hash plus first summary line), while
`translations` gets its counts and line totals only; moreover the
`translations` block is independent of the member list, so it never carries a
per-commit breakdown. -/
theorem C9_thm (bc : Bcolors) (results : AnalysisResult) :
    print_changes_lines bc results = print_changes_spec bc results ∧
      ∀ (idx : Nat) (data : CategorySummary) (details : List CommitDetail),
        category_block_spec bc idx "translations" data
          = category_block_spec bc idx "translations"
              { data with commit_details := details } := by
  constructor
  · simp only [print_changes_lines, print_changes_spec,
      render_categories_eq, Option.map_map]
    rfl
  · intro idx data details
    simp [category_block_spec, category_stat_lines]

/-- Helper: the breakdown line of a commit with an empty summary fails
(`"".splitlines()` is empty, so indexing it raises). -/
theorem detail_line_none (bc : Bcolors) (d : CommitDetail) (h : d.summary = "") :
    detail_line bc d = none := by
  obtain ⟨hx, s⟩ := d
  simp only at h
  subst h
  rfl

/-- Helper: a member list containing a commit with an empty summary fails to
render. -/
theorem render_details_none (bc : Bcolors) (l : List CommitDetail)
    (h : ∃ d ∈ l, d.summary = "") : render_details bc l = none := by
  induction l with
  | nil =>
    obtain ⟨d, hd, _⟩ := h
    cases hd
  | cons c rest ih =>
    obtain ⟨d, hd, hs⟩ := h
    rcases List.mem_cons.mp hd with rfl | hd'
    · simp [render_details, detail_line_none bc d hs]
    · simp only [render_details]
      cases hdl : detail_line bc c with
      | none => rfl
      | some s =>
        rw [ih ⟨d, hd', hs⟩]
        rfl

/-- Helper: the category loop fails as soon as some itemized category holds a
commit with an empty summary. -/
theorem render_categories_none (bc : Bcolors)
    (l : List (Nat × (String × CategorySummary)))
    (h : ∃ p ∈ l, p.2.1 ≠ "translations" ∧
        ∃ d ∈ p.2.2.commit_details, d.summary = "") :
    render_categories bc l = none := by
  induction l with
  | nil =>
    obtain ⟨p, hp, _⟩ := h
    cases hp
  | cons q rest ih =>
    obtain ⟨p, hp, hne, hd⟩ := h
    obtain ⟨idx, category, data⟩ := q
    rcases List.mem_cons.mp hp with rfl | hp'
    · simp only [render_categories, if_neg hne]
      rw [render_details_none bc _ hd]
    · by_cases hc : category = "translations"
      · simp only [render_categories, if_pos hc]
        rw [ih ⟨p, hp', hne, hd⟩]
        rfl
      · simp only [render_categories, if_neg hc]
        cases hdt : render_details bc data.commit_details with
        | none => rfl
        | some det =>
          rw [ih ⟨p, hp', hne, hd⟩]
          rfl

/-- Helper: an element of a list appears, with some index, in its
enumeration. -/
theorem mem_enumFrom_of_mem {α : Type} {x : α} {l : List α} (h : x ∈ l) :
    ∀ n : Nat, ∃ i, (i, x) ∈ l.enumFrom n := by
  induction l with
  | nil => cases h
  | cons a t ih =>
    intro n
    rcases List.mem_cons.mp h with rfl | h'
    · exact ⟨n, by simp [List.enumFrom]⟩
    · obtain ⟨i, hi⟩ := ih h' (n + 1)
      refine ⟨i, ?_⟩
      simp only [List.enumFrom]
      exact List.mem_cons_of_mem _ hi

/-- C10: the report path is not total over valid Commit Records — whenever
some itemized (non-`translations`) category of the Analysis Result contains a
commit whose summary is the empty string, rendering the report fails with the
indexing error modelled by `none` instead of printing a line for that
commit. -/
theorem C10_thm (bc : Bcolors) (results : AnalysisResult)
    (h : ∃ p ∈ results.categories, p.1 ≠ "translations" ∧
        ∃ d ∈ p.2.commit_details, d.summary = "") :
    print_changes_lines bc results = none := by
  obtain ⟨p, hp, hne, hd⟩ := h
  obtain ⟨i, hi⟩ := mem_enumFrom_of_mem hp 1
  unfold print_changes_lines
  rw [render_categories_none bc _ ⟨(i, p), hi, hne, hd⟩]
  rfl

/-- Witness for C10: a result whose `fix` category holds one commit with an
empty summary makes the report rendering fail. -/
theorem C10_witness :
    (∃ p ∈ emptySummaryResult.categories, p.1 ≠ "translations" ∧
        ∃ d ∈ p.2.commit_details, d.summary = "") ∧
      print_changes_lines sampleBcolors emptySummaryResult = none :=
  ⟨by decide, C10_thm sampleBcolors emptySummaryResult (by decide)⟩

end OcaPort
